import Mathlib

/-
Verification of the diff-to-review-position mapper of the pr-review-agent
repository (src/reviewer/main.py, function `find_position_in_diff`).

The mapper takes the unified-diff text of one file (`file.get("patch", "")`
in the source; here the patch string directly) and a target line number in
the new version of the file, and returns the 1-based position of that line
inside the diff's own line stream, or `none` when it cannot be resolved.

The embedding works over `List Char` (the characters of the Python string):
  * `splitlines` models Python `str.splitlines()` (splitting on `\n`,
    `\r\n`, `\r` and the other line boundaries Python recognises, with no
    trailing empty line);
  * `searchPlusDigits` models `re.search(r'\+(\d+)', line)` followed by
    `int(match.group(1))`: the leftmost occurrence of a `+` followed by at
    least one ASCII digit, taking the maximal digit run;
  * `findPosAux` is the scanning loop, with the running position and the
    `current_new_line` counter as explicit parameters;
  * `find_position_in_diff` is the whole function, including the
    `if not patch: return None` guard for the empty patch string.
-/

namespace PRReview

/-- A character at which Python `str.splitlines` breaks a line (other than
the two-character sequence CRLF, handled separately). -/
def isLineBreakChar (c : Char) : Bool :=
  c = '\n' || c = '\r' || c = '\x0b' || c = '\x0c' ||
  c = '\x1c' || c = '\x1d' || c = '\x1e' || c = '\x85' ||
  c = '\u2028' || c = '\u2029'

/-- Prepend a character to the first line of an already-split tail. -/
def consHead (c : Char) : List (List Char) → List (List Char)
  | [] => [[c]]
  | l :: ls => (c :: l) :: ls

/-- Python `str.splitlines()`: split at line boundaries, CRLF counting as a
single boundary, and no empty line after a trailing boundary. -/
def splitlines : List Char → List (List Char)
  | [] => []
  | '\r' :: '\n' :: rest => [] :: splitlines rest
  | c :: rest =>
      if isLineBreakChar c then [] :: splitlines rest
      else consHead c (splitlines rest)

/-- `startsWithChars s p` models Python `s.startswith(p)`. -/
def startsWithChars : List Char → List Char → Bool
  | _, [] => true
  | [], _ :: _ => false
  | c :: cs, d :: ds => c == d && startsWithChars cs ds

/-- `line.startswith("@@")`. -/
def isHunkHeader (l : List Char) : Bool :=
  startsWithChars l ['@', '@']

/-- `line.startswith("+") and not line.startswith("+++")`. -/
def isAddedLine (l : List Char) : Bool :=
  startsWithChars l ['+'] && !(startsWithChars l ['+', '+', '+'])

/-- `line.startswith("-") or line.startswith("\\")`. -/
def isRemovedOrNoNl (l : List Char) : Bool :=
  startsWithChars l ['-'] || startsWithChars l ['\\']

/-- Accumulate the value of a maximal leading ASCII digit run, as
`int(...)` does on the digits matched by a greedy `\d+`. -/
def takeDigitsNat : List Char → Nat → Nat
  | [], acc => acc
  | c :: rest, acc =>
      if c.isDigit then takeDigitsNat rest (acc * 10 + (c.toNat - '0'.toNat))
      else acc

/-- `re.search(r'\+(\d+)', line)` followed by `int(match.group(1))`: find
the leftmost `+` that is immediately followed by a digit and read the
maximal digit run after it; `none` when the pattern does not occur. -/
def searchPlusDigits : List Char → Option Nat
  | [] => none
  | '+' :: c :: rest =>
      if c.isDigit then some (takeDigitsNat (c :: rest) 0)
      else searchPlusDigits (c :: rest)
  | _ :: rest => searchPlusDigits rest

/-- The effect of one diff line on the `current_new_line` counter, exactly
as in the branches of the loop body: a parsable hunk header resets the
counter to `new_start - 1`, an unparsable one leaves it unchanged, an added
line and a context line increment it, a removed line or `\\`-marker line
leaves it unchanged. -/
def stepCounter (cur : Int) (l : List Char) : Int :=
  if isHunkHeader l then
    match searchPlusDigits l with
    | some n => (n : Int) - 1
    | none => cur
  else if isAddedLine l then cur + 1
  else if isRemovedOrNoNl l then cur
  else cur + 1

/-- The scanning loop of `find_position_in_diff`: `position` is the number
of lines already consumed, `cur` the `current_new_line` counter.  Each line
first increments the position, then is classified; an added line that
brings the counter to the target returns the current position. -/
def findPosAux (target : Int) : List (List Char) → Nat → Int → Option Nat
  | [], _, _ => none
  | l :: rest, position, cur =>
    if isHunkHeader l then
      match searchPlusDigits l with
      | some n => findPosAux target rest (position + 1) ((n : Int) - 1)
      | none => findPosAux target rest (position + 1) cur
    else if isAddedLine l then
      if cur + 1 = target then some (position + 1)
      else findPosAux target rest (position + 1) (cur + 1)
    else if isRemovedOrNoNl l then
      findPosAux target rest (position + 1) cur
    else
      findPosAux target rest (position + 1) (cur + 1)

/-- `find_position_in_diff`: the guard `if not patch: return None` followed
by the scan of `patch.splitlines()` with `position = 0` and
`current_new_line = 0`.  (In the source the patch string is obtained as
`file.get("patch", "")`; a missing or null patch becomes the empty string
and is caught by the same guard.) -/
def find_position_in_diff (patch : String) (target_line : Int) : Option Nat :=
  if patch.data = [] then none
  else findPosAux target_line (splitlines patch.data) 0 0

/-- The value of the `current_new_line` counter after each line of the
scan, starting from `cur`: the specification-side view of the new-file
coordinate each line of the diff receives. -/
def coordList (cur : Int) : List (List Char) → List Int
  | [] => []
  | l :: rest => stepCounter cur l :: coordList (stepCounter cur l) rest

/-- The line at 0-based index `i` is an added line (`+` but not `+++`). -/
def addedAt (lines : List (List Char)) (i : Nat) : Bool :=
  match lines.get? i with
  | some l => isAddedLine l
  | none => false

/-- The line at 0-based index `i` is a context line: neither a hunk header
nor an added line nor a removed/`\\` line. -/
def contextAt (lines : List (List Char)) (i : Nat) : Bool :=
  match lines.get? i with
  | some l => !isHunkHeader l && !isAddedLine l && !isRemovedOrNoNl l
  | none => false

/-- The new-file coordinate assigned to the line at 0-based index `i` by a
scan started with counter `cur`. -/
def coordAt (lines : List (List Char)) (cur : Int) (i : Nat) : Option Int :=
  (coordList cur lines).get? i

/-- Index `i` holds an added line whose new-file coordinate is `t`: the
scan's terminal-match condition. -/
def addedMatch (lines : List (List Char)) (cur t : Int) (i : Nat) : Prop :=
  addedAt lines i = true ∧ coordAt lines cur i = some t

instance (lines : List (List Char)) (cur t : Int) (i : Nat) :
    Decidable (addedMatch lines cur t i) := by
  unfold addedMatch; infer_instance

/-! Basic lemmas about the indexing helpers. -/

theorem coordList_length (cur : Int) (lines : List (List Char)) :
    (coordList cur lines).length = lines.length := by
  induction lines generalizing cur with
  | nil => rfl
  | cons l rest ih => simp [coordList, ih]

theorem addedAt_cons_succ (l : List Char) (rest : List (List Char)) (i : Nat) :
    addedAt (l :: rest) (i + 1) = addedAt rest i := rfl

theorem coordAt_cons_zero (l : List Char) (rest : List (List Char)) (cur : Int) :
    coordAt (l :: rest) cur 0 = some (stepCounter cur l) := rfl

theorem coordAt_cons_succ (l : List Char) (rest : List (List Char)) (cur : Int) (i : Nat) :
    coordAt (l :: rest) cur (i + 1) = coordAt rest (stepCounter cur l) i := rfl

theorem addedMatch_cons_zero {l : List Char} {rest : List (List Char)} {cur t : Int} :
    addedMatch (l :: rest) cur t 0 ↔ (isAddedLine l = true ∧ stepCounter cur l = t) := by
  unfold addedMatch addedAt
  rw [coordAt_cons_zero]
  simp

theorem addedMatch_cons_succ {l : List Char} {rest : List (List Char)} {cur t : Int} {i : Nat} :
    addedMatch (l :: rest) cur t (i + 1) ↔ addedMatch rest (stepCounter cur l) t i := by
  unfold addedMatch
  rw [addedAt_cons_succ, coordAt_cons_succ]

theorem addedMatch_lt_length {lines : List (List Char)} {cur t : Int} {i : Nat}
    (h : addedMatch lines cur t i) : i < lines.length := by
  obtain ⟨-, hc⟩ := h
  unfold coordAt at hc
  by_contra hge
  rw [List.get?_eq_none.mpr (by rw [coordList_length]; omega)] at hc
  exact Option.noConfusion hc

theorem addedAt_iff_exists {lines : List (List Char)} {i : Nat} :
    addedAt lines i = true ↔ ∃ l, lines.get? i = some l ∧ isAddedLine l = true := by
  unfold addedAt
  cases h : lines.get? i <;> simp

/-! Head-classification lemmas: a line's branch in the loop is determined by
its leading characters, and the branches are mutually exclusive. -/

theorem startsWithChars_cons_iff (l : List Char) (c : Char) (cs : List Char) :
    startsWithChars l (c :: cs) = true ↔ ∃ rest, l = c :: rest ∧ startsWithChars rest cs = true := by
  cases l with
  | nil => simp [startsWithChars]
  | cons a as =>
    simp only [startsWithChars, Bool.and_eq_true, beq_iff_eq, List.cons.injEq]
    constructor
    · rintro ⟨rfl, h⟩; exact ⟨as, ⟨rfl, rfl⟩, h⟩
    · rintro ⟨rest, ⟨rfl, rfl⟩, h⟩; exact ⟨rfl, h⟩

theorem header_not_added {l : List Char} (h : isHunkHeader l = true) :
    isAddedLine l = false := by
  unfold isHunkHeader at h
  rw [startsWithChars_cons_iff] at h
  obtain ⟨rest, rfl, -⟩ := h
  simp [isAddedLine, startsWithChars, show (('@' : Char) == '+') = false from rfl]

theorem ppp_not_header {l : List Char} (h : startsWithChars l ['+', '+', '+'] = true) :
    isHunkHeader l = false := by
  rw [startsWithChars_cons_iff] at h
  obtain ⟨rest, rfl, -⟩ := h
  simp [isHunkHeader, startsWithChars, show (('+' : Char) == '@') = false from rfl]

theorem ppp_not_added {l : List Char} (h : startsWithChars l ['+', '+', '+'] = true) :
    isAddedLine l = false := by
  simp [isAddedLine, h]

theorem ppp_not_removed {l : List Char} (h : startsWithChars l ['+', '+', '+'] = true) :
    isRemovedOrNoNl l = false := by
  rw [startsWithChars_cons_iff] at h
  obtain ⟨rest, rfl, -⟩ := h
  simp [isRemovedOrNoNl, startsWithChars,
    show (('+' : Char) == '-') = false from rfl,
    show (('+' : Char) == '\\') = false from rfl]

theorem mmm_not_header {m : List Char} (h : startsWithChars m ['-', '-', '-'] = true) :
    isHunkHeader m = false := by
  rw [startsWithChars_cons_iff] at h
  obtain ⟨rest, rfl, -⟩ := h
  simp [isHunkHeader, startsWithChars, show (('-' : Char) == '@') = false from rfl]

theorem mmm_not_added {m : List Char} (h : startsWithChars m ['-', '-', '-'] = true) :
    isAddedLine m = false := by
  rw [startsWithChars_cons_iff] at h
  obtain ⟨rest, rfl, -⟩ := h
  simp [isAddedLine, startsWithChars, show (('-' : Char) == '+') = false from rfl]

theorem mmm_removed {m : List Char} (h : startsWithChars m ['-', '-', '-'] = true) :
    isRemovedOrNoNl m = true := by
  rw [startsWithChars_cons_iff] at h
  obtain ⟨rest, rfl, -⟩ := h
  simp [isRemovedOrNoNl, startsWithChars]

/-! The index-shift lemmas used to run the cons case of the main
characterization, in the style of aux-parameter lemmas for recursive
functions carrying extra state. -/

theorem exists_match_shift {l : List Char} {rest : List (List Char)} {cur t : Int}
    {pos p : Nat} (h0 : ¬ addedMatch (l :: rest) cur t 0) :
    (∃ i, p = pos + i + 1 ∧ addedMatch (l :: rest) cur t i ∧
       ∀ j, j < i → ¬ addedMatch (l :: rest) cur t j) ↔
    (∃ i, p = pos + 1 + i + 1 ∧ addedMatch rest (stepCounter cur l) t i ∧
       ∀ j, j < i → ¬ addedMatch rest (stepCounter cur l) t j) := by
  constructor
  · rintro ⟨i, hp, hm, hmin⟩
    cases i with
    | zero => exact absurd hm h0
    | succ i' =>
      refine ⟨i', by omega, addedMatch_cons_succ.mp hm, ?_⟩
      intro j hj hcj
      exact hmin (j + 1) (by omega) (addedMatch_cons_succ.mpr hcj)
  · rintro ⟨i', hp, hm, hmin⟩
    refine ⟨i' + 1, by omega, addedMatch_cons_succ.mpr hm, ?_⟩
    intro j hj
    cases j with
    | zero => exact fun hc => h0 hc
    | succ j' => exact fun hc => hmin j' (by omega) (addedMatch_cons_succ.mp hc)

theorem exists_match_found {l : List Char} {rest : List (List Char)} {cur t : Int}
    {pos p : Nat} (h0 : addedMatch (l :: rest) cur t 0) :
    (∃ i, p = pos + i + 1 ∧ addedMatch (l :: rest) cur t i ∧
       ∀ j, j < i → ¬ addedMatch (l :: rest) cur t j) ↔ p = pos + 1 := by
  constructor
  · rintro ⟨i, hp, hm, hmin⟩
    cases i with
    | zero => omega
    | succ i' => exact absurd h0 (hmin 0 (by omega))
  · intro hp
    exact ⟨0, by omega, h0, fun j hj => absurd hj (Nat.not_lt_zero j)⟩

/-- Main characterization of the scanning loop: it returns position `p`
exactly when the line at 0-based index `i = p - pos - 1` is the first added
line whose new-file coordinate equals the target. -/
theorem findPosAux_eq_some_iff (t : Int) (lines : List (List Char)) :
    ∀ (pos : Nat) (cur : Int) (p : Nat),
    findPosAux t lines pos cur = some p ↔
    ∃ i, p = pos + i + 1 ∧ addedMatch lines cur t i ∧
      ∀ j, j < i → ¬ addedMatch lines cur t j := by
  induction lines with
  | nil =>
    intro pos cur p
    simp only [findPosAux]
    constructor
    · intro h; exact Option.noConfusion h
    · rintro ⟨i, -, hm, -⟩
      exact absurd (addedMatch_lt_length hm) (by simp)
  | cons l rest ih =>
    intro pos cur p
    cases hh : isHunkHeader l with
    | true =>
      have h0 : ¬ addedMatch (l :: rest) cur t 0 := by
        rw [addedMatch_cons_zero]
        rintro ⟨h1, -⟩
        rw [header_not_added hh] at h1
        exact Bool.noConfusion h1
      cases hsp : searchPlusDigits l with
      | some n =>
        have hL : findPosAux t (l :: rest) pos cur =
            findPosAux t rest (pos + 1) ((n : Int) - 1) := by
          simp [findPosAux, hh, hsp]
        have hsc : stepCounter cur l = (n : Int) - 1 := by
          simp [stepCounter, hh, hsp]
        rw [hL, ih (pos + 1) ((n : Int) - 1) p, exists_match_shift h0, hsc]
      | none =>
        have hL : findPosAux t (l :: rest) pos cur =
            findPosAux t rest (pos + 1) cur := by
          simp [findPosAux, hh, hsp]
        have hsc : stepCounter cur l = cur := by
          simp [stepCounter, hh, hsp]
        rw [hL, ih (pos + 1) cur p, exists_match_shift h0, hsc]
    | false =>
      cases ha : isAddedLine l with
      | true =>
        have hsc : stepCounter cur l = cur + 1 := by
          simp [stepCounter, hh, ha]
        by_cases heq : cur + 1 = t
        · have h0 : addedMatch (l :: rest) cur t 0 := by
            rw [addedMatch_cons_zero]
            exact ⟨ha, by rw [hsc]; exact heq⟩
          have hL : findPosAux t (l :: rest) pos cur = some (pos + 1) := by
            simp [findPosAux, hh, ha, heq]
          rw [hL, exists_match_found h0]
          simp [eq_comm]
        · have h0 : ¬ addedMatch (l :: rest) cur t 0 := by
            rw [addedMatch_cons_zero]
            rintro ⟨-, h2⟩
            rw [hsc] at h2
            exact heq h2
          have hL : findPosAux t (l :: rest) pos cur =
              findPosAux t rest (pos + 1) (cur + 1) := by
            simp [findPosAux, hh, ha, heq]
          rw [hL, ih (pos + 1) (cur + 1) p, exists_match_shift h0, hsc]
      | false =>
        have h0 : ¬ addedMatch (l :: rest) cur t 0 := by
          rw [addedMatch_cons_zero]
          rintro ⟨h1, -⟩
          rw [ha] at h1
          exact Bool.noConfusion h1
        cases hr : isRemovedOrNoNl l with
        | true =>
          have hL : findPosAux t (l :: rest) pos cur =
              findPosAux t rest (pos + 1) cur := by
            simp [findPosAux, hh, ha, hr]
          have hsc : stepCounter cur l = cur := by
            simp [stepCounter, hh, ha, hr]
          rw [hL, ih (pos + 1) cur p, exists_match_shift h0, hsc]
        | false =>
          have hL : findPosAux t (l :: rest) pos cur =
              findPosAux t rest (pos + 1) (cur + 1) := by
            simp [findPosAux, hh, ha, hr]
          have hsc : stepCounter cur l = cur + 1 := by
            simp [stepCounter, hh, ha, hr]
          rw [hL, ih (pos + 1) (cur + 1) p, exists_match_shift h0, hsc]

/-! Claim theorems. -/

/-- Claim C1: on success, the returned position is the 1-based index of the
matched added line within the full ordered line sequence of the diff text:
`1 ≤ p ≤ number of lines`, and the line at 0-based index `p - 1` (so every
line of the diff — headers, removed lines, metadata lines — occupies
exactly one position, the first line being position 1) is an added line
whose new-file coordinate equals the target. -/
theorem C1_success_position_indexes_added_line (patch : String) (t : Int) (p : Nat)
    (h : find_position_in_diff patch t = some p) :
    1 ≤ p ∧ p ≤ (splitlines patch.data).length ∧
    addedAt (splitlines patch.data) (p - 1) = true ∧
    coordAt (splitlines patch.data) 0 (p - 1) = some t := by
  unfold find_position_in_diff at h
  by_cases he : patch.data = []
  · rw [if_pos he] at h
    exact Option.noConfusion h
  · rw [if_neg he, findPosAux_eq_some_iff] at h
    obtain ⟨i, hp, hm, -⟩ := h
    have hlen := addedMatch_lt_length hm
    obtain ⟨hadd, hcoord⟩ := hm
    have hip : p - 1 = i := by omega
    rw [hip]
    exact ⟨by omega, by omega, hadd, hcoord⟩

/-- Witness for C1 at a concrete diff: target 3 maps to position 4, which
indexes the added line `+c`. -/
theorem C1_witness :
    find_position_in_diff "@@ -1,3 +1,4 @@\n+a\n b\n+c\n-d" 3 = some 4 ∧
    (1 ≤ 4 ∧ 4 ≤ (splitlines "@@ -1,3 +1,4 @@\n+a\n b\n+c\n-d".data).length ∧
     addedAt (splitlines "@@ -1,3 +1,4 @@\n+a\n b\n+c\n-d".data) (4 - 1) = true ∧
     coordAt (splitlines "@@ -1,3 +1,4 @@\n+a\n b\n+c\n-d".data) 0 (4 - 1) = some 3) :=
  ⟨by decide,
   C1_success_position_indexes_added_line "@@ -1,3 +1,4 @@\n+a\n b\n+c\n-d" 3 4 (by decide)⟩

/-- Claim C2: on the diff consisting of the hunk header `@@ -1,3 +1,4 @@`
followed by `+a`, ` b`, `+c`, `-d`, target new-file line 1 maps to
position 2 (header = 1, `+a` = 2). -/
theorem C2_single_hunk_example_position :
    find_position_in_diff "@@ -1,3 +1,4 @@\n+a\n b\n+c\n-d" 1 = some 2 := by
  decide

/-- Claim C3: a hunk header whose new-file field parses to `n` sets the
running counter to `n - 1` regardless of the counter value in effect
before it: the scan after the header is the scan of the remaining lines
with counter `n - 1`, and the result does not depend on the incoming
counter value at all. -/
theorem C3_parsable_header_resets_counter (l : List Char) (n : Nat)
    (hh : isHunkHeader l = true) (hp : searchPlusDigits l = some n)
    (t : Int) (rest : List (List Char)) (pos : Nat) (cur cur' : Int) :
    findPosAux t (l :: rest) pos cur = findPosAux t rest (pos + 1) ((n : Int) - 1) ∧
    findPosAux t (l :: rest) pos cur = findPosAux t (l :: rest) pos cur' := by
  have e : ∀ c : Int,
      findPosAux t (l :: rest) pos c = findPosAux t rest (pos + 1) ((n : Int) - 1) := by
    intro c
    simp [findPosAux, hh, hp]
  exact ⟨e cur, (e cur).trans (e cur').symm⟩

/-- Witness for C3: the header `@@ -8,2 +20,3 @@` resets the counter to 19
whether the incoming counter is 5 or 99. -/
theorem C3_witness :
    isHunkHeader "@@ -8,2 +20,3 @@".data = true ∧
    searchPlusDigits "@@ -8,2 +20,3 @@".data = some 20 ∧
    (findPosAux 20 ["@@ -8,2 +20,3 @@".data, "+x".data] 0 5 =
       findPosAux 20 ["+x".data] (0 + 1) ((20 : Int) - 1) ∧
     findPosAux 20 ["@@ -8,2 +20,3 @@".data, "+x".data] 0 5 =
       findPosAux 20 ["@@ -8,2 +20,3 @@".data, "+x".data] 0 99) :=
  ⟨by decide, by decide,
   C3_parsable_header_resets_counter "@@ -8,2 +20,3 @@".data 20 (by decide) (by decide)
     20 ["+x".data] 0 5 99⟩

/-- Claim C4: when the target's new-file coordinate is reached during the
scan only by context lines and by no added line, the mapper returns the
`none` sentinel: only added lines are eligible as the terminal match. -/
theorem C4_context_only_coordinate_not_resolvable (patch : String) (t : Int)
    (_hctx : ∃ i, contextAt (splitlines patch.data) i = true ∧
       coordAt (splitlines patch.data) 0 i = some t)
    (hadd : ∀ i, i < (splitlines patch.data).length →
       ¬ addedMatch (splitlines patch.data) 0 t i) :
    find_position_in_diff patch t = none := by
  cases hres : find_position_in_diff patch t with
  | none => rfl
  | some p =>
    exfalso
    unfold find_position_in_diff at hres
    by_cases he : patch.data = []
    · rw [if_pos he] at hres
      exact Option.noConfusion hres
    · rw [if_neg he, findPosAux_eq_some_iff] at hres
      obtain ⟨i, -, hm, -⟩ := hres
      exact hadd i (addedMatch_lt_length hm) hm

/-- Witness for C4: in `@@ -1,2 +1,2 @@` / ` a` / `+b`, new-file line 1 is
the context line ` a`; the mapper cannot resolve it. -/
theorem C4_witness :
    (∃ i, contextAt (splitlines "@@ -1,2 +1,2 @@\n a\n+b".data) i = true ∧
       coordAt (splitlines "@@ -1,2 +1,2 @@\n a\n+b".data) 0 i = some 1) ∧
    (∀ i, i < (splitlines "@@ -1,2 +1,2 @@\n a\n+b".data).length →
       ¬ addedMatch (splitlines "@@ -1,2 +1,2 @@\n a\n+b".data) 0 1 i) ∧
    find_position_in_diff "@@ -1,2 +1,2 @@\n a\n+b" 1 = none :=
  ⟨⟨1, by decide⟩, by decide,
   C4_context_only_coordinate_not_resolvable "@@ -1,2 +1,2 @@\n a\n+b" 1
     ⟨1, by decide⟩ (by decide)⟩

/-- Claim C5: a hunk header line whose new-file field does not parse is
skipped: the scan is not aborted, the counter is unchanged at that header,
and the remaining lines are scanned with the counter value that was in
effect before the malformed header (stale-counter behavior). -/
theorem C5_malformed_header_skipped_stale_counter (l : List Char)
    (hh : isHunkHeader l = true) (hp : searchPlusDigits l = none)
    (t : Int) (rest : List (List Char)) (pos : Nat) (cur : Int) :
    findPosAux t (l :: rest) pos cur = findPosAux t rest (pos + 1) cur := by
  simp [findPosAux, hh, hp]

/-- Witness for C5: the header `@@ malformed @@` has no parsable new-file
field; the scan continues over the rest with the stale counter 7. -/
theorem C5_witness :
    isHunkHeader "@@ malformed @@".data = true ∧
    searchPlusDigits "@@ malformed @@".data = none ∧
    findPosAux 8 ["@@ malformed @@".data, "+x".data] 3 7 =
      findPosAux 8 ["+x".data] (3 + 1) 7 :=
  ⟨by decide, by decide,
   C5_malformed_header_skipped_stale_counter "@@ malformed @@".data (by decide) (by decide)
     8 ["+x".data] 3 7⟩

/-- Claim C6: for every diff text and every integer target the mapper
yields a defined value — either the `none` sentinel or a position.  In the
embedding the mapper is a total structurally-recursive function, so
termination and the absence of any propagated exception hold by
construction; this theorem records that the result is always one of the
two documented outcomes. -/
theorem C6_total_defined_result (patch : String) (t : Int) :
    find_position_in_diff patch t = none ∨
    ∃ p : Nat, find_position_in_diff patch t = some p := by
  cases h : find_position_in_diff patch t with
  | none => exact Or.inl rfl
  | some p => exact Or.inr ⟨p, rfl⟩

/-- Claim C7: the empty diff text is rejected by the initial guard for
every target line: the result is `none`, before any line is scanned. -/
theorem C7_empty_diff_none (t : Int) :
    find_position_in_diff "" t = none := rfl

/-- Claim C8: two invocations with identical inputs yield identical
outputs.  The embedding is a pure function of exactly the two arguments —
there is no hidden or shared mutable state for the result to depend on —
so the two-run property holds definitionally. -/
theorem C8_deterministic_two_runs (patch : String) (t : Int) :
    find_position_in_diff patch t = find_position_in_diff patch t := rfl

/-- Claim C9: whenever the mapper returns a position `p`, then
`1 ≤ p ≤ number of lines`, the `p`-th line of the diff begins with `+` but
not with `+++`, its new-file coordinate equals the target, and `p` is the
position of the earliest such line: no earlier line is an added line whose
coordinate equals the target (first match wins). -/
theorem C9_result_is_first_added_match (patch : String) (t : Int) (p : Nat)
    (h : find_position_in_diff patch t = some p) :
    1 ≤ p ∧ p ≤ (splitlines patch.data).length ∧
    (∃ l, (splitlines patch.data).get? (p - 1) = some l ∧
       startsWithChars l ['+'] = true ∧
       startsWithChars l ['+', '+', '+'] = false) ∧
    coordAt (splitlines patch.data) 0 (p - 1) = some t ∧
    ∀ j, j < p - 1 → ¬ addedMatch (splitlines patch.data) 0 t j := by
  unfold find_position_in_diff at h
  by_cases he : patch.data = []
  · rw [if_pos he] at h
    exact Option.noConfusion h
  · rw [if_neg he, findPosAux_eq_some_iff] at h
    obtain ⟨i, hp, hm, hmin⟩ := h
    have hlen := addedMatch_lt_length hm
    obtain ⟨hadd, hcoord⟩ := hm
    have hip : p - 1 = i := by omega
    rw [addedAt_iff_exists] at hadd
    obtain ⟨l, hget, hl⟩ := hadd
    rw [isAddedLine, Bool.and_eq_true, Bool.not_eq_true'] at hl
    rw [hip]
    exact ⟨by omega, by omega, ⟨l, hget, hl.1, hl.2⟩, hcoord,
      fun j hj => hmin j (by omega)⟩

/-- Witness for C9 at a concrete diff: target 2 maps to position 3, the
added line `+new`, with no earlier added match. -/
theorem C9_witness :
    find_position_in_diff "@@ -1,2 +1,3 @@\n x\n+new\n y" 2 = some 3 ∧
    (1 ≤ 3 ∧ 3 ≤ (splitlines "@@ -1,2 +1,3 @@\n x\n+new\n y".data).length ∧
     (∃ l, (splitlines "@@ -1,2 +1,3 @@\n x\n+new\n y".data).get? (3 - 1) = some l ∧
        startsWithChars l ['+'] = true ∧
        startsWithChars l ['+', '+', '+'] = false) ∧
     coordAt (splitlines "@@ -1,2 +1,3 @@\n x\n+new\n y".data) 0 (3 - 1) = some 2 ∧
     ∀ j, j < 3 - 1 → ¬ addedMatch (splitlines "@@ -1,2 +1,3 @@\n x\n+new\n y".data) 0 2 j) :=
  ⟨by decide,
   C9_result_is_first_added_match "@@ -1,2 +1,3 @@\n x\n+new\n y" 2 3 (by decide)⟩

/-- Claim C10: the file-metadata lines are treated asymmetrically: a line
beginning with `+++` takes the context branch — it increments the new-file
counter by one and can never itself be the match — while a line beginning
with `---` takes the removed branch and leaves the counter unchanged, so a
`+++` line not preceded by a parsable hunk header consumes one new-file
coordinate and shifts the matches after it by one. -/
theorem C10_metadata_lines_asymmetric (l m : List Char) (rest : List (List Char))
    (t : Int) (pos : Nat) (cur : Int)
    (hl : startsWithChars l ['+', '+', '+'] = true)
    (hm : startsWithChars m ['-', '-', '-'] = true) :
    findPosAux t (l :: rest) pos cur = findPosAux t rest (pos + 1) (cur + 1) ∧
    findPosAux t (m :: rest) pos cur = findPosAux t rest (pos + 1) cur := by
  constructor
  · simp [findPosAux, ppp_not_header hl, ppp_not_added hl, ppp_not_removed hl]
  · simp [findPosAux, mmm_not_header hm, mmm_not_added hm, mmm_removed hm]

/-- Witness for C10: with no parsable header, `+++ b/f` consumes new-file
coordinate 1, so the first added line `+x` is coordinate 2 (shifted by
one), while `--- a/f` leaves the counter untouched. -/
theorem C10_witness :
    startsWithChars "+++ b/f".data ['+', '+', '+'] = true ∧
    startsWithChars "--- a/f".data ['-', '-', '-'] = true ∧
    (findPosAux 2 ["+++ b/f".data, "+x".data] 0 0 =
       findPosAux 2 ["+x".data] (0 + 1) (0 + 1) ∧
     findPosAux 2 ["--- a/f".data, "+x".data] 0 0 =
       findPosAux 2 ["+x".data] (0 + 1) 0) :=
  ⟨by decide, by decide,
   C10_metadata_lines_asymmetric "+++ b/f".data "--- a/f".data ["+x".data] 2 0 0
     (by decide) (by decide)⟩

end PRReview
